import Mathlib

/-!
Verification of the snapshot/codec layer of the milvus metadata core.

Part 1 embeds the binary vector-index codec
(SSVectorIndexFormat: write_index / read_index / convert_raw) at the byte
level.  Bytes are Nats; a file is a List Nat; the storage reader's
read(buf, n) at position pos is modelled by readBytes, with bytes past
end-of-file modelled as 0 (the C++ leaves the freshly allocated destination
buffer uninitialized there and never checks the read result).
size_t / int64_t length fields are 8 little-endian bytes, the int32 index
type tag is 4 little-endian bytes, as written on x86-64 by the source.

Part 2 models the MVCC engine (snapshot registry, operations, visitors,
collectors), whose implementation is not part of the visible sources (only
its unit tests are); those definitions are modelled from the spec and are
marked as such.

Layout: all definitions first, then all lemmas and theorems.
-/

namespace Milvus

/-! ### Codec definitions -/

/-- Little-endian encoding of a machine integer into k bytes
(k = 8 for size_t / int64_t, k = 4 for int32_t). -/
def encBytes : Nat → Nat → List Nat
  | 0, _ => []
  | k + 1, n => n % 256 :: encBytes k (n / 256)

/-- Little-endian decoding of a byte list into a Nat. -/
def decBytes (bs : List Nat) : Nat :=
  bs.foldr (fun b acc => acc * 256 + b) 0

/-- Model of the storage reader: read n bytes at offset pos.  Bytes beyond
end-of-file are modelled as 0 (the source neither zero-fills nor checks the
short read; the destination buffer is simply left uninitialized there). -/
def readBytes (file : List Nat) (pos n : Nat) : List Nat :=
  (List.range n).map (fun i => file.getD (pos + i) 0)

/-- One record as laid down by the body of write_index's loop over the
binary map: (meta length : size_t, 8 bytes) (meta bytes) (blob length :
int64_t, 8 bytes) (blob bytes). -/
def writeRecord (name blob : List Nat) : List Nat :=
  encBytes 8 name.length ++ name ++ encBytes 8 blob.length ++ blob

/-- The concatenation of all records of a binary map (its ordered entry
list, as produced by iterating the std::map in write_index). -/
def records (m : List (List Nat × List Nat)) : List Nat :=
  (m.map (fun p => writeRecord p.1 p.2)).flatten

/-- SSVectorIndexFormat::write_index, at the byte level: open the writer,
write the 4-byte int32 index-type tag, then for each entry of the binary
map append its record with the successive write calls of the loop.  The
index argument is represented by its serialized binary map (the
index->Serialize step belongs to the external knowhere library) and the
int32 tag value. -/
def write_index (index_type : Nat) (binary_map : List (List Nat × List Nat)) : List Nat :=
  binary_map.foldl
    (fun acc p => acc ++ encBytes 8 p.1.length ++ p.1 ++ encBytes 8 p.2.length ++ p.2)
    (encBytes 4 index_type)

/-- The §4.5 file layout stated in the spec's own words: a 4-byte
index-type tag followed by a sequence of records, each
(meta length, meta bytes, blob length, blob bytes), until end-of-file.
Used as the comparison point for the layout claim. -/
def specIndexLayout (tag : Nat) (m : List (List Nat × List Nat)) : List Nat :=
  encBytes 4 tag ++
    (m.map (fun p => encBytes 8 p.1.length ++ p.1 ++ encBytes 8 p.2.length ++ p.2)).flatten

/-- The record-decoding while loop of read_index (while rp < length),
with its reads modelled by readBytes.  Each iteration reads an 8-byte
meta length, the meta bytes, an 8-byte blob length and the blob bytes,
appends the (meta, blob) pair to the output BinarySet and advances rp by
what it declared to have read.  The loop is driven by a fuel parameter;
read_index supplies fuel length.toNat, which can never run out: every
iteration advances rp by at least 16, so the guard rp < length fails
after at most length/16 + 1 iterations (readLoopAux_final below shows the
loop always exits with rp ≥ length).  Returns the decoded records
together with the final read position rp. -/
def readLoopAux (file : List Nat) (length : Int) :
    Nat → Nat → List (List Nat × List Nat) × Nat
  | 0, rp => ([], rp)
  | fuel + 1, rp =>
    if (rp : Int) < length then
      let meta_length := decBytes (readBytes file rp 8)
      let meta := readBytes file (rp + 8) meta_length
      let bin_length := decBytes (readBytes file (rp + 8 + meta_length) 8)
      let bin := readBytes file (rp + 8 + meta_length + 8) bin_length
      let rest := readLoopAux file length fuel (rp + 8 + meta_length + 8 + bin_length)
      ((meta, bin) :: rest.1, rest.2)
    else ([], rp)

/-- SSVectorIndexFormat::read_index: after open succeeds, length() is
queried; if length <= 0 the function returns at once, appending nothing
to the output BinarySet (and raising no error).  Otherwise the 4-byte
int32 index-type tag is read (into a variable the source never uses
afterwards), leaving rp = 4, and the record loop runs.  Returns the list
of (meta, blob) pairs appended to the output BinarySet, together with the
final read position rp.  There is no Corruption (or any other error)
result: the only throw in the source is for a failed open, which is
outside this model. -/
def read_index (file : List Nat) (length : Int) : List (List Nat × List Nat) × Nat :=
  if length ≤ 0 then ([], 0)
  else readLoopAux file length length.toNat 4

/-- knowhere::Binary: a byte buffer together with its size field. -/
structure Binary where
  size : Nat
  data : List Nat
deriving Repr, DecidableEq

/-- SSVectorIndexFormat::convert_raw, exactly as in the source: allocate a
Binary whose size is raw.size() and whose data is a freshly allocated
buffer of that size, and return without ever copying raw into it.  The
fresh (uninitialized) allocation is modelled as zero bytes. -/
def convert_raw (raw : List Nat) : Binary :=
  { size := raw.length, data := List.replicate raw.length 0 }

/-! ### Engine definitions

The MVCC engine (resource graph, snapshot registry, operation/commit
protocol, visitor layer, collectors) is not among the visible sources:
only its unit tests and build glue are.  Every definition below is
modelled from the spec, faithful to its words, and says so in its doc
comment. -/

/-- Modelled from the spec (§3): the lifecycle state every resource
carries: STAGED, ACTIVE or STALE. -/
inductive ResourceState
  | staged
  | active
  | stale
deriving Repr, DecidableEq

/-- Modelled from the spec (§3): a Field of a collection schema. -/
structure Field where
  id : Nat
  name : String
  state : ResourceState
deriving Repr, DecidableEq

/-- Modelled from the spec (§3): a FieldElement, a named derived artifact
of one Field. -/
structure FieldElement where
  id : Nat
  fieldId : Nat
  name : String
  state : ResourceState
deriving Repr, DecidableEq

/-- Modelled from the spec (§3): a Segment of one partition. -/
structure Segment where
  id : Nat
  partitionId : Nat
  state : ResourceState
deriving Repr, DecidableEq

/-- Modelled from the spec (§3): a SegmentFile binding one Segment and one
FieldElement to stored bytes. -/
structure SegmentFile where
  id : Nat
  segmentId : Nat
  partitionId : Nat
  fieldElementId : Nat
  state : ResourceState
deriving Repr, DecidableEq

/-- Modelled from the spec (§3): a PartitionCommit, the per-partition
roll-up of row counts. -/
structure PartitionCommit where
  partitionId : Nat
  rowCount : Nat
  state : ResourceState
deriving Repr, DecidableEq

/-- Modelled from the spec (§3): a SegmentCommit, the per-segment roll-up
of row counts. -/
structure SegmentCommit where
  segmentId : Nat
  partitionId : Nat
  rowCount : Nat
  state : ResourceState
deriving Repr, DecidableEq

/-- Modelled from the spec (§2, §3): a Snapshot is an immutable,
fully-resolved view of one collection's resource graph at one LSN: the
CollectionCommit (LSN and rolled-up row count) plus the resolved
resources beneath it. -/
structure Snapshot where
  lsn : Nat
  rowCount : Nat
  fields : List Field
  fieldElements : List FieldElement
  segments : List Segment
  segmentFiles : List SegmentFile
  partitionCommits : List PartitionCommit
  segmentCommits : List SegmentCommit
deriving Repr, DecidableEq

/-- The IsActive() accessor of the test surface. -/
def Segment.IsActive (s : Segment) : Bool :=
  s.state == ResourceState.active

/-- The IsActive() accessor of the test surface. -/
def SegmentFile.IsActive (f : SegmentFile) : Bool :=
  f.state == ResourceState.active

/-- Modelled from the spec (§7): the error taxonomy of the status
channel. -/
inductive Status
  | ok
  | notFound
  | alreadyExists
  | conflict
  | invalidArgument
  | ioError
  | corruption
deriving Repr, DecidableEq

/-- Modelled from the spec (§4.1): the snapshot registry.  Published
snapshots are immutable, so the model keeps them in an append-only arena
(store) and maps each collection name to the index of its current
snapshot.  A reference-counted handle is a pin, modelled as an index into
the arena, which a reader can keep dereferencing no matter how many later
publishes occur. -/
structure Registry where
  store : List Snapshot
  current : List (String × Nat)
deriving Repr, DecidableEq

/-- Modelled from the spec (§4.1): GetSnapshot returns a pinned handle on
the collection's current Snapshot, or NotFound when the name is absent
(never created, or dropped). -/
def getSnapshot (r : Registry) (name : String) : Except Status (Nat × Snapshot) :=
  match r.current.find? (fun p => p.1 == name) with
  | none => Except.error Status.notFound
  | some p =>
    match r.store[p.2]? with
    | none => Except.error Status.notFound
    | some s => Except.ok (p.2, s)

/-- Modelled from the spec (§4.1): Publish atomically replaces the
current-snapshot pointer of one collection; the arena is append-only, so
existing pinned handles are untouched. -/
def publish (r : Registry) (name : String) (s : Snapshot) : Registry :=
  { store := r.store ++ [s],
    current := (name, r.store.length) :: r.current.filter (fun p => p.1 != name) }

/-- A sequence of publishes applied in order. -/
def applyPublishes (r : Registry) (ps : List (String × Snapshot)) : Registry :=
  ps.foldl (fun acc p => publish acc p.1 p.2) r

/-- Dereference a pinned handle: what a reader holding the handle
observes. -/
def readHandle (r : Registry) (h : Nat) : Option Snapshot :=
  r.store[h]?

/-- Modelled from the test surface (AllCollections): the collection name
listing. -/
def allCollections (r : Registry) : List String :=
  r.current.map (fun p => p.1)

/-- Modelled from the spec (§4.2 edge cases): DropCollection removes the
name from the registry; dropping a name not present fails with NotFound
and changes nothing. -/
def dropCollection (r : Registry) (name : String) : Status × Registry :=
  if r.current.any (fun p => p.1 == name) then
    (Status.ok, { r with current := r.current.filter (fun p => p.1 != name) })
  else
    (Status.notFound, r)

/-- Modelled from the test surface (Snapshot::GetFieldElementId): resolve
a (field name, field-element name) pair to the element's ID, 0 when
absent. -/
def getFieldElementId (s : Snapshot) (fname ename : String) : Nat :=
  match s.fields.find? (fun f => f.name == fname) with
  | none => 0
  | some f =>
    match s.fieldElements.find? (fun fe => fe.fieldId == f.id && fe.name == ename) with
    | none => 0
    | some fe => fe.id

/-- Modelled from the spec (§4.2): DropIndex on a (field, field-element
name) pair removes exactly the FieldElement with that name and every
SegmentFile referencing it, across all partitions and segments, in one
commit that publishes one new snapshot at the next LSN. -/
def dropIndex (s : Snapshot) (fname ename : String) (newLsn : Nat) :
    Except Status Snapshot :=
  let feId := getFieldElementId s fname ename
  if feId = 0 then Except.error Status.notFound
  else Except.ok { s with
    lsn := newLsn,
    fieldElements := s.fieldElements.filter (fun fe => fe.id != feId),
    segmentFiles := s.segmentFiles.filter (fun f => f.fieldElementId != feId) }

/-- Modelled from the spec (§4.4): SegmentFileCollector enumerates every
SegmentFile reachable from the snapshot (across all partitions and
segments) and retains those satisfying the predicate. -/
def segmentFileCollector (s : Snapshot) (pred : SegmentFile → Bool) : List SegmentFile :=
  s.segmentFiles.filter pred

/-- Sum of the row counts of the ACTIVE partition commits. -/
def activePartitionRowSum (pcs : List PartitionCommit) : Nat :=
  ((pcs.filter (fun pc => pc.state == ResourceState.active)).map (fun pc => pc.rowCount)).sum

/-- Sum of the row counts of the ACTIVE segment commits of one
partition. -/
def activeSegmentRowSum (scs : List SegmentCommit) (pid : Nat) : Nat :=
  ((scs.filter (fun sc => sc.state == ResourceState.active && sc.partitionId == pid)).map
    (fun sc => sc.rowCount)).sum

/-- Modelled from the spec (§3 invariants): the row-count roll-up
invariant of a published snapshot: the CollectionCommit row count equals
the sum of the ACTIVE PartitionCommit row counts, each of which equals
the sum of its ACTIVE SegmentCommit row counts; ACTIVE partition commits
have pairwise distinct partition IDs (one commit per partition). -/
def RowCountsWellFormed (s : Snapshot) : Prop :=
  s.rowCount = activePartitionRowSum s.partitionCommits
  ∧ (∀ pc ∈ s.partitionCommits, pc.state = ResourceState.active →
      pc.rowCount = activeSegmentRowSum s.segmentCommits pc.partitionId)
  ∧ ((s.partitionCommits.filter (fun pc => pc.state == ResourceState.active)).map
      (fun pc => pc.partitionId)).Nodup

/-- One row-count-adding commit (NewSegmentOperation + CommitRowCount +
Push): the partition it targets, the new segment's ID, the row-count
delta it adds, and the LSN of the commit. -/
structure CommitOp where
  partitionId : Nat
  segmentId : Nat
  delta : Nat
  lsn : Nat
deriving Repr, DecidableEq

/-- The partition-commit update of one row-count-adding commit: the
targeted ACTIVE partition commit is re-rolled with the delta added. -/
def bumpPartition (pid delta : Nat) (pc : PartitionCommit) : PartitionCommit :=
  if pc.partitionId = pid ∧ pc.state = ResourceState.active then
    { pc with rowCount := pc.rowCount + delta }
  else pc

/-- Modelled from the spec (§4.2): committing a staged new segment whose
row count is delta: the new SegmentCommit becomes ACTIVE, the targeted
partition's commit row count and the collection commit row count are
bumped by delta, and the snapshot's LSN advances to the commit's LSN. -/
def commitNewSegment (s : Snapshot) (op : CommitOp) : Snapshot :=
  { s with
    lsn := op.lsn,
    rowCount := s.rowCount + op.delta,
    partitionCommits := s.partitionCommits.map (bumpPartition op.partitionId op.delta),
    segmentCommits := s.segmentCommits
      ++ [{ segmentId := op.segmentId, partitionId := op.partitionId,
            rowCount := op.delta, state := ResourceState.active }] }

/-- A sequence of row-count-adding commits applied in order. -/
def applyCommits (s : Snapshot) (ops : List CommitOp) : Snapshot :=
  ops.foldl commitNewSegment s

/-- Modelled from the spec (§4.2, §8): the snapshot of a freshly created
collection: row count 0, the implicit default partition's commit with row
count 0, no segments, files or segment commits. -/
def initialSnapshot (lsn pid : Nat) : Snapshot :=
  { lsn := lsn, rowCount := 0, fields := [], fieldElements := [], segments := [],
    segmentFiles := [],
    partitionCommits := [{ partitionId := pid, rowCount := 0,
                           state := ResourceState.active }],
    segmentCommits := [] }

/-- Modelled from the spec (§4.3): the visitor of one (segment,
field-element) pair: exposes the single file for that pair from the
underlying file set if one exists, else none. -/
structure FieldElementVisitor where
  element : FieldElement
  file : Option SegmentFile
deriving Repr, DecidableEq

/-- Modelled from the spec (§4.3): one FieldVisitor per Field, holding
one FieldElementVisitor per FieldElement of that field. -/
structure FieldVisitor where
  field : Field
  elementVisitors : List FieldElementVisitor
deriving Repr, DecidableEq

/-- Modelled from the spec (§4.3): the read-only view rooted at one
Segment. -/
structure SegmentVisitor where
  segment : Segment
  fieldVisitors : List FieldVisitor
deriving Repr, DecidableEq

/-- Modelled from the spec (§4.3): the SegmentVisitor::Build overload that
builds the visitor shape directly from an Operation's
staged-but-uncommitted segment and segment-file set: one FieldVisitor per
Field of the collection, one FieldElementVisitor per FieldElement of that
field, each exposing the file of the given set referencing the (segment,
element) pair, if any.  The visitor does not care whether the underlying
resources are STAGED or ACTIVE.
The construction of the per-element and per-field visitors is split into
the named helpers elementVisitorFor and fieldVisitorFor below. -/
def elementVisitorFor (seg : Segment) (files : List SegmentFile) (fe : FieldElement) :
    FieldElementVisitor :=
  { element := fe,
    file := files.find? (fun f => f.segmentId == seg.id && f.fieldElementId == fe.id) }

/-- The FieldVisitor of one field: one FieldElementVisitor per
FieldElement of that field. -/
def fieldVisitorFor (snap : Snapshot) (seg : Segment) (files : List SegmentFile)
    (fld : Field) : FieldVisitor :=
  { field := fld,
    elementVisitors := (snap.fieldElements.filter (fun fe => fe.fieldId == fld.id)).map
      (elementVisitorFor seg files) }

/-- SegmentVisitor::Build from a staged segment and staged file set: see
the comment on elementVisitorFor above. -/
def segmentVisitorBuild (snap : Snapshot) (seg : Segment) (files : List SegmentFile) :
    Option SegmentVisitor :=
  some { segment := seg, fieldVisitors := snap.fields.map (fieldVisitorFor snap seg files) }

/-- All files exposed across a visitor's field-element visitors. -/
def exposedFiles (v : SegmentVisitor) : List SegmentFile :=
  (v.fieldVisitors.map (fun fv => fv.elementVisitors.filterMap (fun ev => ev.file))).flatten

/-! ### Concrete sample data used by the engine witnesses -/

/-- An empty first snapshot for the registry witnesses. -/
def sampleSnapshot0 : Snapshot :=
  { lsn := 1, rowCount := 0, fields := [], fieldElements := [], segments := [],
    segmentFiles := [], partitionCommits := [], segmentCommits := [] }

/-- A later snapshot published while a reader still pins
sampleSnapshot0. -/
def sampleSnapshot1 : Snapshot :=
  { sampleSnapshot0 with lsn := 2, rowCount := 100 }

/-- A registry whose collection c1 currently points at sampleSnapshot0. -/
def sampleRegistry : Registry :=
  { store := [sampleSnapshot0], current := [("c1", 0)] }

/-- A snapshot mirroring the IndexTest fixture: a vector field with an
ivfsq8 index element, and index files in two partitions. -/
def sampleIndexSnapshot : Snapshot :=
  { lsn := 5, rowCount := 200,
    fields := [⟨1, "vector", ResourceState.active⟩, ⟨3, "int", ResourceState.active⟩],
    fieldElements := [⟨2, 1, "ivfsq8", ResourceState.active⟩],
    segments := [⟨10, 20, ResourceState.active⟩, ⟨11, 21, ResourceState.active⟩],
    segmentFiles := [⟨30, 10, 20, 2, ResourceState.active⟩,
      ⟨31, 11, 21, 2, ResourceState.active⟩],
    partitionCommits := [], segmentCommits := [] }

/-- sampleIndexSnapshot after DropIndex("vector", "ivfsq8"): the element
and both of its files are gone. -/
def sampleDroppedSnapshot : Snapshot :=
  { sampleIndexSnapshot with lsn := 6, fieldElements := [], segmentFiles := [] }

/-- The staged segment of the VisitorTest-style witness. -/
def sampleStagedSegment : Segment :=
  { id := 50, partitionId := 20, state := ResourceState.staged }

/-- The staged segment file of the VisitorTest-style witness. -/
def sampleStagedFile : SegmentFile :=
  { id := 60, segmentId := 50, partitionId := 20, fieldElementId := 2,
    state := ResourceState.staged }

/-! ### Codec lemmas -/

lemma encBytes_length : ∀ k n, (encBytes k n).length = k := by
  intro k
  induction k with
  | zero => intro n; rfl
  | succ k ih => intro n; simp [encBytes, ih]

lemma decBytes_encBytes : ∀ k n, n < 256 ^ k → decBytes (encBytes k n) = n := by
  intro k
  induction k with
  | zero =>
      intro n h
      simp [pow_zero] at h
      simp [h, encBytes, decBytes]
  | succ k ih =>
      intro n h
      have hdiv : n / 256 < 256 ^ k := by
        rw [Nat.div_lt_iff_lt_mul (by norm_num : 0 < 256)]
        calc n < 256 ^ (k + 1) := h
        _ = 256 ^ k * 256 := by ring
      have : decBytes (encBytes k (n / 256)) = n / 256 := ih _ hdiv
      simp [encBytes, decBytes] at this ⊢
      rw [this]
      omega

lemma readBytes_length (file : List Nat) (pos n : Nat) :
    (readBytes file pos n).length = n := by
  simp [readBytes]

lemma readBytes_of_take (file : List Nat) (pos n : Nat) (h : pos + n ≤ file.length) :
    readBytes file pos n = (file.drop pos).take n := by
  apply List.ext_getElem
  · simp [readBytes]
    omega
  · intro i h1 h2
    simp only [readBytes, List.getElem_map, List.getElem_range, List.getElem_take,
      List.getElem_drop]
    have hi : pos + i < file.length := by
      simp [readBytes] at h1
      omega
    rw [List.getD_eq_getElem file 0 hi]

/-- Reading a chunk that sits entirely inside the file returns it verbatim. -/
lemma readBytes_at (pre l rest : List Nat) :
    readBytes (pre ++ (l ++ rest)) pre.length l.length = l := by
  rw [readBytes_of_take]
  · rw [List.drop_left, List.take_append_of_le_length (le_refl l.length), List.take_length]
  · simp

lemma readBytes_at' (file pre l rest : List Nat) (pos n : Nat)
    (hfile : file = pre ++ (l ++ rest)) (hpos : pos = pre.length) (hn : n = l.length) :
    readBytes file pos n = l := by
  subst hfile hpos hn
  exact readBytes_at pre l rest

lemma foldl_records (m : List (List Nat × List Nat)) :
    ∀ acc : List Nat,
      m.foldl
        (fun acc p => acc ++ encBytes 8 p.1.length ++ p.1 ++ encBytes 8 p.2.length ++ p.2)
        acc = acc ++ records m := by
  induction m with
  | nil => intro acc; simp [records]
  | cons p rest ih =>
      intro acc
      simp only [List.foldl_cons, ih, records, List.map_cons, List.flatten]
      simp [writeRecord, List.append_assoc]

lemma write_index_eq (t : Nat) (m : List (List Nat × List Nat)) :
    write_index t m = encBytes 4 t ++ records m :=
  foldl_records m (encBytes 4 t)

lemma records_cons (p : List Nat × List Nat) (rest : List (List Nat × List Nat)) :
    records (p :: rest) = writeRecord p.1 p.2 ++ records rest := by
  simp [records]

lemma writeRecord_length (name blob : List Nat) :
    (writeRecord name blob).length = 16 + name.length + blob.length := by
  simp [writeRecord, encBytes_length]
  omega

lemma records_length_ge (m : List (List Nat × List Nat)) :
    m.length ≤ (records m).length := by
  induction m with
  | nil => simp [records]
  | cons p rest ih =>
      rw [records_cons]
      simp [writeRecord_length]
      omega

/-- The loop exits only once rp has reached or passed the declared length
(provided enough fuel, which read_index always supplies). -/
lemma readLoopAux_final (file : List Nat) (length : Int) :
    ∀ (fuel rp : Nat), length ≤ (rp : Int) + 16 * (fuel : Int) →
      length ≤ ((readLoopAux file length fuel rp).2 : Int) := by
  intro fuel
  induction fuel with
  | zero =>
      intro rp h
      simpa [readLoopAux] using h
  | succ fuel ih =>
      intro rp h
      by_cases hlt : (rp : Int) < length
      · simp only [readLoopAux, hlt, if_true]
        apply ih
        push_cast
        push_cast at h
        omega
      · simpa [readLoopAux, hlt] using not_lt.mp hlt

lemma readLoopAux_step (file : List Nat) (length : Int) (fuel rp : Nat)
    (h : (rp : Int) < length) :
    readLoopAux file length (fuel + 1) rp =
      ((readBytes file (rp + 8) (decBytes (readBytes file rp 8)),
        readBytes file (rp + 8 + decBytes (readBytes file rp 8) + 8)
          (decBytes (readBytes file (rp + 8 + decBytes (readBytes file rp 8)) 8))) ::
        (readLoopAux file length fuel
          (rp + 8 + decBytes (readBytes file rp 8) + 8 +
            decBytes (readBytes file (rp + 8 + decBytes (readBytes file rp 8)) 8))).1,
       (readLoopAux file length fuel
          (rp + 8 + decBytes (readBytes file rp 8) + 8 +
            decBytes (readBytes file (rp + 8 + decBytes (readBytes file rp 8)) 8))).2) := by
  simp [readLoopAux, h]

/-- Running the record loop at the start of a well-formed record region
decodes exactly the written entries and stops exactly at end-of-file. -/
lemma readLoopAux_records :
    ∀ (m : List (List Nat × List Nat)) (pre : List Nat) (fuel : Nat),
      (∀ p ∈ m, p.1.length < 2 ^ 64 ∧ p.2.length < 2 ^ 64) →
      m.length ≤ fuel →
      readLoopAux (pre ++ records m) ((pre ++ records m).length : Int) fuel pre.length
        = (m, (pre ++ records m).length) := by
  intro m
  induction m with
  | nil =>
      intro pre fuel _ _
      cases fuel with
      | zero => simp [readLoopAux, records]
      | succ fuel => simp [readLoopAux, records]
  | cons p rest ih =>
      intro pre fuel hb hfuel
      obtain ⟨name, blob⟩ := p
      obtain ⟨fuel, rfl⟩ : ∃ f, fuel = f + 1 := ⟨fuel - 1, by simp at hfuel; omega⟩
      have h256 : (2 : Nat) ^ 64 = 256 ^ 8 := by norm_num
      have hname : name.length < 256 ^ 8 := by
        rw [← h256]
        exact (hb _ (List.mem_cons_self _ _)).1
      have hblob : blob.length < 256 ^ 8 := by
        rw [← h256]
        exact (hb _ (List.mem_cons_self _ _)).2
      set file := pre ++ records ((name, blob) :: rest) with hfiledef
      have hassoc : file = pre ++ (encBytes 8 name.length ++
          (name ++ (encBytes 8 blob.length ++ (blob ++ records rest)))) := by
        simp [hfiledef, records_cons, writeRecord, List.append_assoc]
      have hlen : file.length = pre.length + (16 + name.length + blob.length)
          + (records rest).length := by
        rw [hfiledef, records_cons]
        simp [writeRecord_length]
        omega
      have hguard : ((pre.length : Nat) : Int) < (file.length : Int) := by
        have : pre.length < file.length := by omega
        exact_mod_cast this
      rw [readLoopAux_step file (file.length : Int) fuel pre.length hguard]
      have h1 : readBytes file pre.length 8 = encBytes 8 name.length :=
        readBytes_at' file pre (encBytes 8 name.length) _ pre.length 8 hassoc rfl
          (by rw [encBytes_length])
      rw [h1, decBytes_encBytes 8 name.length hname]
      have h2 : readBytes file (pre.length + 8) name.length = name :=
        readBytes_at' file (pre ++ encBytes 8 name.length) name
          (encBytes 8 blob.length ++ (blob ++ records rest)) _ _
          (by rw [hassoc]; simp [List.append_assoc])
          (by simp [encBytes_length]) rfl
      rw [h2]
      have h3 : readBytes file (pre.length + 8 + name.length) 8 = encBytes 8 blob.length :=
        readBytes_at' file (pre ++ encBytes 8 name.length ++ name) (encBytes 8 blob.length)
          (blob ++ records rest) _ _
          (by rw [hassoc]; simp [List.append_assoc])
          (by simp [encBytes_length]; omega) (by rw [encBytes_length])
      rw [h3, decBytes_encBytes 8 blob.length hblob]
      have h4 : readBytes file (pre.length + 8 + name.length + 8) blob.length = blob :=
        readBytes_at' file (pre ++ encBytes 8 name.length ++ name ++ encBytes 8 blob.length)
          blob (records rest) _ _
          (by rw [hassoc]; simp [List.append_assoc])
          (by simp [encBytes_length]; omega) rfl
      rw [h4]
      have hIH := ih (pre ++ writeRecord name blob) fuel
        (fun q hq => hb q (List.mem_cons_of_mem _ hq))
        (by simp at hfuel ⊢; omega)
      have hfile2 : pre ++ writeRecord name blob ++ records rest = file := by
        rw [hassoc]
        simp [writeRecord, List.append_assoc]
      have hrp : (pre ++ writeRecord name blob).length
          = pre.length + 8 + name.length + 8 + blob.length := by
        simp [writeRecord_length]
        omega
      rw [hfile2, hrp] at hIH
      rw [hIH]

/-- write then read of the index file reproduces the binary map; shared by
the roundtrip and layout claims. -/
lemma read_write_index_aux (t : Nat) (m : List (List Nat × List Nat))
    (hb : ∀ p ∈ m, p.1.length < 2 ^ 64 ∧ p.2.length < 2 ^ 64) :
    (read_index (write_index t m) ((write_index t m).length : Int)).1 = m := by
  have hlen4 := encBytes_length 4 t
  have hflen : (write_index t m).length = 4 + (records m).length := by
    rw [write_index_eq]
    simp [hlen4]
  have hfuel : m.length ≤ (write_index t m).length := by
    have := records_length_ge m
    omega
  have hnotle : ¬ (((write_index t m).length : Int) ≤ 0) := by
    have hpos : 0 < (write_index t m).length := by omega
    exact not_le.mpr (by exact_mod_cast hpos)
  rw [read_index, if_neg hnotle, Int.toNat_natCast]
  have hrec := readLoopAux_records m (encBytes 4 t) (write_index t m).length hb hfuel
  rw [← write_index_eq] at hrec
  rw [encBytes_length] at hrec
  rw [hrec]

/-! ### Codec claim theorems -/

/-- Claim C1: for every name-to-bytes map (including maps containing
zero-length blobs), serializing it with write_index and then deserializing
the resulting file with read_index yields a map identical to the original,
byte-for-byte for every key.  The map is represented by its ordered entry
list; the hypothesis bounds every name and blob length by 2^64, the width
of the size_t / int64_t length fields on the wire. -/
theorem c1_write_read_index_roundtrip (t : Nat) (m : List (List Nat × List Nat))
    (hb : ∀ p ∈ m, p.1.length < 2 ^ 64 ∧ p.2.length < 2 ^ 64) :
    (read_index (write_index t m) ((write_index t m).length : Int)).1 = m :=
  read_write_index_aux t m hb

/-- Witness for C1 at a concrete two-entry map whose first blob has zero
length. -/
theorem c1_witness :
    (read_index (write_index 3 [([97], []), ([98, 99], [0, 255])])
        ((write_index 3 [([97], []), ([98, 99], [0, 255])]).length : Int)).1
      = [([97], []), ([98, 99], [0, 255])] :=
  c1_write_read_index_roundtrip 3 [([97], []), ([98, 99], [0, 255])] (by decide)

/-- Claim C8: every file written by write_index consists of a 4-byte
index-type tag followed by a sequence of records, each laid out as
(meta length, meta bytes, blob length, blob bytes), with records
continuing until end-of-file (specIndexLayout, phrased from the spec's
words), and read_index reconstructs the name-to-bytes mapping from exactly
this layout. -/
theorem c8_file_layout (t : Nat) (m : List (List Nat × List Nat))
    (hb : ∀ p ∈ m, p.1.length < 2 ^ 64 ∧ p.2.length < 2 ^ 64) :
    write_index t m = specIndexLayout t m
    ∧ (read_index (specIndexLayout t m) ((specIndexLayout t m).length : Int)).1 = m := by
  have h1 : write_index t m = specIndexLayout t m := by
    rw [write_index_eq]
    simp [specIndexLayout, records, writeRecord]
  exact ⟨h1, by rw [← h1]; exact read_write_index_aux t m hb⟩

/-- Witness for C8 at a concrete one-entry map. -/
theorem c8_witness :
    write_index 1 [([107], [9])] = specIndexLayout 1 [([107], [9])]
    ∧ (read_index (specIndexLayout 1 [([107], [9])])
        ((specIndexLayout 1 [([107], [9])]).length : Int)).1 = [([107], [9])] :=
  c8_file_layout 1 [([107], [9])] (by decide)

/-- Claim C10: for every file that opens successfully but whose reported
length is at most zero, read_index returns normally (no error path exists
past open in the model), appends no record to the output BinarySet, and
leaves it unchanged: the result is the empty record list. -/
theorem c10_nonpositive_length (file : List Nat) (length : Int) (h : length ≤ 0) :
    read_index file length = ([], 0) := by
  rw [read_index, if_pos h]

/-- Witness for C10: a nonempty file whose reader reports length 0. -/
theorem c10_witness : read_index [5, 6, 7] 0 = ([], 0) :=
  c10_nonpositive_length [5, 6, 7] 0 (by norm_num)

/-- Claim C6, counterexample: a 12-byte file (4-byte tag followed by a
record declaring a 100-byte meta field that the file does not contain)
makes read_index consume up to position 120 — far beyond the declared
length 12 — and append a normal record fabricated from the short read
(the 100 bytes past end-of-file), rather than reporting Corruption, which
read_index has no way to signal.  This refutes both halves of the claim:
the loop consumes more than the declared length, and a short read before
the declared length is treated as ordinary data, not Corruption. -/
theorem c6_counterexample :
    12 < (read_index (encBytes 4 1 ++ encBytes 8 100) 12).2
    ∧ (read_index (encBytes 4 1 ++ encBytes 8 100) 12).1
        = [(List.replicate 100 0, [])] := by
  decide

/-- Claim C6, amended: read_index's record loop tests rp < length only at
record boundaries, so it stops only once rp has reached or passed the
declared length — it may consume more than the declared length when a
record's declared field lengths overrun the file, and any short read is
consumed silently and appended as a normal record; no Corruption is ever
reported (read_index has no error result after open succeeds). -/
theorem c6_loop_bound (file : List Nat) (length : Int) (h : 0 < length) :
    length ≤ ((read_index file length).2 : Int) := by
  rw [read_index, if_neg (not_le.mpr h)]
  apply readLoopAux_final
  rw [Int.toNat_of_nonneg h.le]
  omega

/-- Witness for the amended C6 at a concrete file. -/
theorem c6_witness : (7 : Int) ≤ ((read_index [1, 2] 7).2 : Int) :=
  c6_loop_bound [1, 2] 7 (by norm_num)

/-- Claim C5: the claim demands that convert_raw produce a Binary whose
size equals the input's size and whose payload bytes equal the input
verbatim.  The source allocates the same-sized buffer but never copies the
input into it (a code bug also called out by the spec's design notes): at
input [1] the size matches but the payload does not. -/
theorem c5_convert_raw_does_not_copy :
    (convert_raw [1]).size = 1 ∧ (convert_raw [1]).data ≠ [1] := by
  decide

/-! ### Engine lemmas -/

lemma publish_readHandle (r : Registry) (n : String) (s : Snapshot) (h : Nat) (x : Snapshot)
    (hx : readHandle r h = some x) : readHandle (publish r n s) h = some x := by
  have hlt : h < r.store.length := by
    rcases List.getElem?_eq_some.mp hx with ⟨hl, _⟩
    exact hl
  show (r.store ++ [s])[h]? = some x
  rw [List.getElem?_append_left hlt]
  exact hx

lemma applyPublishes_readHandle :
    ∀ (ps : List (String × Snapshot)) (r : Registry) (h : Nat) (x : Snapshot),
      readHandle r h = some x → readHandle (applyPublishes r ps) h = some x := by
  intro ps
  induction ps with
  | nil =>
      intro r h x hx
      simpa [applyPublishes] using hx
  | cons p rest ih =>
      intro r h x hx
      simp only [applyPublishes, List.foldl_cons] at ih ⊢
      exact ih (publish r p.1 p.2) h x (publish_readHandle r p.1 p.2 h x hx)

lemma getSnapshot_readHandle (r : Registry) (name : String) (h : Nat) (s : Snapshot)
    (hget : getSnapshot r name = Except.ok (h, s)) : readHandle r h = some s := by
  unfold getSnapshot at hget
  split at hget
  · exact absurd hget (by simp)
  · rename_i p hfind
    split at hget
    · exact absurd hget (by simp)
    · rename_i x hst
      simp only [Except.ok.injEq, Prod.mk.injEq] at hget
      unfold readHandle
      rw [← hget.1, hst, hget.2]

lemma bumpPartition_partitionId (pid delta : Nat) (pc : PartitionCommit) :
    (bumpPartition pid delta pc).partitionId = pc.partitionId := by
  unfold bumpPartition
  split <;> rfl

lemma bumpPartition_state (pid delta : Nat) (pc : PartitionCommit) :
    (bumpPartition pid delta pc).state = pc.state := by
  unfold bumpPartition
  split <;> rfl

lemma activeIds_map_bump (pcs : List PartitionCommit) (pid delta : Nat) :
    (((pcs.map (bumpPartition pid delta)).filter
        (fun pc => pc.state == ResourceState.active)).map (fun pc => pc.partitionId))
      = ((pcs.filter (fun pc => pc.state == ResourceState.active)).map
          (fun pc => pc.partitionId)) := by
  induction pcs with
  | nil => rfl
  | cons pc rest ih =>
      simp only [List.map_cons, List.filter_cons, bumpPartition_state]
      by_cases hs : pc.state == ResourceState.active
      · simp only [hs, if_true, List.map_cons, bumpPartition_partitionId, ih]
      · rw [if_neg hs, if_neg hs]
        exact ih

lemma map_bump_of_not_mem (pcs : List PartitionCommit) (pid delta : Nat)
    (h : ∀ pc ∈ pcs, ¬(pc.partitionId = pid ∧ pc.state = ResourceState.active)) :
    pcs.map (bumpPartition pid delta) = pcs := by
  induction pcs with
  | nil => rfl
  | cons pc rest ih =>
      simp only [List.map_cons]
      rw [show bumpPartition pid delta pc = pc from by
        unfold bumpPartition
        rw [if_neg (h pc (List.mem_cons_self _ _))]]
      rw [ih (fun q hq => h q (List.mem_cons_of_mem _ hq))]

lemma activePartitionRowSum_cons (pc : PartitionCommit) (rest : List PartitionCommit) :
    activePartitionRowSum (pc :: rest)
      = (if pc.state = ResourceState.active then pc.rowCount else 0)
        + activePartitionRowSum rest := by
  unfold activePartitionRowSum
  rw [List.filter_cons]
  by_cases hs : pc.state = ResourceState.active
  · simp [hs]
  · simp [hs]

lemma activePartitionRowSum_bump (pcs : List PartitionCommit) (pid delta : Nat)
    (hnd : ((pcs.filter (fun pc => pc.state == ResourceState.active)).map
        (fun pc => pc.partitionId)).Nodup)
    (hex : ∃ pc ∈ pcs, pc.partitionId = pid ∧ pc.state = ResourceState.active) :
    activePartitionRowSum (pcs.map (bumpPartition pid delta))
      = activePartitionRowSum pcs + delta := by
  induction pcs with
  | nil => simp at hex
  | cons pc rest ih =>
      by_cases hm : pc.partitionId = pid ∧ pc.state = ResourceState.active
      · have hbump : bumpPartition pid delta pc
            = { pc with rowCount := pc.rowCount + delta } := by
          unfold bumpPartition
          rw [if_pos hm]
        have hfc : (pc :: rest).filter (fun x => x.state == ResourceState.active)
            = pc :: rest.filter (fun x => x.state == ResourceState.active) := by
          rw [List.filter_cons, if_pos (by simp [hm.2])]
        rw [hfc] at hnd
        simp only [List.map_cons, List.nodup_cons] at hnd
        have hrest : ∀ q ∈ rest, ¬(q.partitionId = pid ∧ q.state = ResourceState.active) := by
          intro q hq hqm
          apply hnd.1
          rw [hm.1, ← hqm.1]
          exact List.mem_map.mpr ⟨q, List.mem_filter.mpr ⟨hq, by simp [hqm.2]⟩, rfl⟩
        rw [List.map_cons, hbump, map_bump_of_not_mem rest pid delta hrest]
        rw [activePartitionRowSum_cons, activePartitionRowSum_cons]
        have hstate : ({ pc with rowCount := pc.rowCount + delta }
            : PartitionCommit).state = pc.state := rfl
        rw [hstate, if_pos hm.2, if_pos hm.2]
        show pc.rowCount + delta + activePartitionRowSum rest = _
        omega
      · have hbump : bumpPartition pid delta pc = pc := by
          unfold bumpPartition
          rw [if_neg hm]
        have hex' : ∃ q ∈ rest, q.partitionId = pid ∧ q.state = ResourceState.active := by
          obtain ⟨q, hq, hqm⟩ := hex
          rcases List.mem_cons.mp hq with heq | hq'
          · exact absurd (heq ▸ hqm) hm
          · exact ⟨q, hq', hqm⟩
        have hnd' : ((rest.filter (fun x => x.state == ResourceState.active)).map
            (fun x => x.partitionId)).Nodup := by
          by_cases hs : pc.state = ResourceState.active
          · rw [List.filter_cons, if_pos (by simp [hs])] at hnd
            simp only [List.map_cons, List.nodup_cons] at hnd
            exact hnd.2
          · rw [List.filter_cons, if_neg (by simp [hs])] at hnd
            exact hnd
        rw [List.map_cons, hbump, activePartitionRowSum_cons, activePartitionRowSum_cons,
          ih hnd' hex']
        omega

lemma activeSegmentRowSum_append (scs : List SegmentCommit) (sc : SegmentCommit) (pid : Nat) :
    activeSegmentRowSum (scs ++ [sc]) pid
      = activeSegmentRowSum scs pid
        + (if sc.state = ResourceState.active ∧ sc.partitionId = pid
           then sc.rowCount else 0) := by
  unfold activeSegmentRowSum
  rw [List.filter_append, List.map_append, List.sum_append]
  congr 1
  by_cases hm : sc.state = ResourceState.active ∧ sc.partitionId = pid
  · obtain ⟨h1, h2⟩ := hm
    simp [h1, h2]
  · rw [if_neg hm]
    rcases not_and_or.mp hm with h1 | h2
    · simp [h1]
    · simp [h2]

lemma commitNewSegment_wellFormed (s : Snapshot) (op : CommitOp)
    (hwf : RowCountsWellFormed s)
    (hex : ∃ pc ∈ s.partitionCommits,
        pc.partitionId = op.partitionId ∧ pc.state = ResourceState.active) :
    RowCountsWellFormed (commitNewSegment s op) := by
  obtain ⟨h1, h2, h3⟩ := hwf
  refine ⟨?_, ?_, ?_⟩
  · show s.rowCount + op.delta
        = activePartitionRowSum (s.partitionCommits.map
            (bumpPartition op.partitionId op.delta))
    rw [activePartitionRowSum_bump _ _ _ h3 hex, h1]
  · intro pc' hpc' hact
    obtain ⟨pc, hpc, rfl⟩ := List.mem_map.mp hpc'
    have hact' : pc.state = ResourceState.active := by
      rw [← bumpPartition_state op.partitionId op.delta pc]
      exact hact
    show (bumpPartition op.partitionId op.delta pc).rowCount
        = activeSegmentRowSum (s.segmentCommits
            ++ [{ segmentId := op.segmentId, partitionId := op.partitionId,
                  rowCount := op.delta, state := ResourceState.active }])
          (bumpPartition op.partitionId op.delta pc).partitionId
    rw [bumpPartition_partitionId, activeSegmentRowSum_append]
    by_cases hm : pc.partitionId = op.partitionId ∧ pc.state = ResourceState.active
    · have hbump : bumpPartition op.partitionId op.delta pc
          = { pc with rowCount := pc.rowCount + op.delta } := by
        unfold bumpPartition
        rw [if_pos hm]
      rw [hbump, if_pos ⟨rfl, hm.1.symm⟩]
      show pc.rowCount + op.delta
          = activeSegmentRowSum s.segmentCommits pc.partitionId + op.delta
      rw [h2 pc hpc hm.2]
    · have hbump : bumpPartition op.partitionId op.delta pc = pc := by
        unfold bumpPartition
        rw [if_neg hm]
      rw [hbump]
      have hne : pc.partitionId ≠ op.partitionId := fun he => hm ⟨he, hact'⟩
      rw [if_neg (fun hc => hne (Eq.symm hc.2)), Nat.add_zero]
      exact h2 pc hpc hact'
  · show ((((s.partitionCommits.map (bumpPartition op.partitionId op.delta)).filter
        (fun pc => pc.state == ResourceState.active)).map
          (fun pc => pc.partitionId))).Nodup
    rw [activeIds_map_bump]
    exact h3

lemma commitNewSegment_active_partition (s : Snapshot) (op : CommitOp) (pid : Nat)
    (h : ∃ pc ∈ s.partitionCommits,
        pc.partitionId = pid ∧ pc.state = ResourceState.active) :
    ∃ pc ∈ (commitNewSegment s op).partitionCommits,
      pc.partitionId = pid ∧ pc.state = ResourceState.active := by
  obtain ⟨pc, hpc, hid, hact⟩ := h
  refine ⟨bumpPartition op.partitionId op.delta pc, List.mem_map.mpr ⟨pc, hpc, rfl⟩, ?_, ?_⟩
  · rw [bumpPartition_partitionId]
    exact hid
  · rw [bumpPartition_state]
    exact hact

lemma flatten_map_nil {α β : Type} (g : α → List β) :
    ∀ l : List α, (∀ x ∈ l, g x = []) → (l.map g).flatten = [] := by
  intro l
  induction l with
  | nil => intro _; rfl
  | cons x rest ih =>
      intro h
      simp only [List.map_cons, List.flatten_cons, h x (List.mem_cons_self _ _),
        List.nil_append]
      exact ih (fun q hq => h q (List.mem_cons_of_mem _ hq))

/-- If exactly one list element produces output, the flattened map is that
output. -/
lemma flatten_map_single {α β : Type} (l : List α) (g : α → List β) (a : α) (out : List β)
    (hnd : l.Nodup) (ha : a ∈ l) (hg : g a = out)
    (hother : ∀ x ∈ l, x ≠ a → g x = []) :
    (l.map g).flatten = out := by
  induction l with
  | nil => cases ha
  | cons x rest ih =>
      simp only [List.map_cons, List.flatten_cons]
      rcases List.mem_cons.mp ha with heq | hmem
      · subst heq
        rw [hg]
        rw [flatten_map_nil g rest (fun y hy =>
          hother y (List.mem_cons_of_mem _ hy)
            (fun he => (List.nodup_cons.mp hnd).1 (he ▸ hy)))]
        exact List.append_nil out
      · rw [hother x (List.mem_cons_self _ _)
          (fun he => (List.nodup_cons.mp hnd).1 (he.symm ▸ hmem)), List.nil_append]
        exact ih (List.nodup_cons.mp hnd).2 hmem
          (fun y hy hne => hother y (List.mem_cons_of_mem _ hy) hne)

/-- If exactly one list element maps to some value, filterMap yields
exactly that value. -/
lemma filterMap_single {α β : Type} (l : List α) (g : α → Option β) (a : α) (b : β)
    (hnd : l.Nodup) (ha : a ∈ l) (hg : g a = some b)
    (hother : ∀ x ∈ l, x ≠ a → g x = none) :
    l.filterMap g = [b] := by
  induction l with
  | nil => cases ha
  | cons x rest ih =>
      rw [List.filterMap_cons]
      rcases List.mem_cons.mp ha with heq | hmem
      · subst heq
        rw [hg]
        rw [List.filterMap_eq_nil_iff.mpr (fun y hy =>
          hother y (List.mem_cons_of_mem _ hy)
            (fun he => (List.nodup_cons.mp hnd).1 (he ▸ hy)))]
      · rw [hother x (List.mem_cons_self _ _)
          (fun he => (List.nodup_cons.mp hnd).1 (he.symm ▸ hmem))]
        exact ih (List.nodup_cons.mp hnd).2 hmem
          (fun y hy hne => hother y (List.mem_cons_of_mem _ hy) hne)

/-! ### Engine claim theorems -/

/-- Claim C2: a Snapshot handle pinned before any number of subsequent
publishes keeps observing exactly the pinned Snapshot — its row count and
its resource set (segment files) included — unchanged by the publishes,
until the handle is released (releasing is outside the model: the arena
retains every pinned snapshot). -/
theorem c2_pinned_snapshot_stable (r : Registry) (name : String) (h : Nat) (s : Snapshot)
    (ps : List (String × Snapshot))
    (hget : getSnapshot r name = Except.ok (h, s)) :
    readHandle (applyPublishes r ps) h = some s
    ∧ (readHandle (applyPublishes r ps) h).map Snapshot.rowCount = some s.rowCount
    ∧ (readHandle (applyPublishes r ps) h).map Snapshot.segmentFiles
        = some s.segmentFiles := by
  have hstable := applyPublishes_readHandle ps r h s (getSnapshot_readHandle r name h s hget)
  exact ⟨hstable, by rw [hstable]; rfl, by rw [hstable]; rfl⟩

/-- Witness for C2: the pinned empty snapshot of c1 stays observable,
with row count 0, across two later publishes that raise the current row
count to 100. -/
theorem c2_witness :
    readHandle (applyPublishes sampleRegistry [("c1", sampleSnapshot1), ("c1", sampleSnapshot1)]) 0
        = some sampleSnapshot0
    ∧ (readHandle (applyPublishes sampleRegistry
          [("c1", sampleSnapshot1), ("c1", sampleSnapshot1)]) 0).map Snapshot.rowCount
        = some sampleSnapshot0.rowCount
    ∧ (readHandle (applyPublishes sampleRegistry
          [("c1", sampleSnapshot1), ("c1", sampleSnapshot1)]) 0).map Snapshot.segmentFiles
        = some sampleSnapshot0.segmentFiles :=
  c2_pinned_snapshot_stable sampleRegistry "c1" 0 sampleSnapshot0
    [("c1", sampleSnapshot1), ("c1", sampleSnapshot1)] rfl

/-- Claim C7: once a collection name has been successfully dropped, the
name is absent from the collection listing, and a second drop of the same
name fails with NotFound and changes nothing (the registry it returns is
the unchanged one). -/
theorem c7_drop_collection_twice (r : Registry) (name : String)
    (h : (dropCollection r name).1 = Status.ok) :
    name ∉ allCollections (dropCollection r name).2
    ∧ dropCollection (dropCollection r name).2 name
        = (Status.notFound, (dropCollection r name).2) := by
  by_cases hex : r.current.any (fun p => p.1 == name)
  · have hdrop : dropCollection r name
        = (Status.ok, { r with current := r.current.filter (fun p => p.1 != name) }) := by
      rw [dropCollection, if_pos hex]
    rw [hdrop]
    have hgone : ∀ q ∈ r.current.filter (fun p => p.1 != name), ¬ q.1 = name := by
      intro q hq
      have := (List.mem_filter.mp hq).2
      simpa using this
    refine ⟨?_, ?_⟩
    · intro hmem
      obtain ⟨q, hq, hqe⟩ := List.mem_map.mp hmem
      exact hgone q hq hqe
    · have hnone : ¬ (({ r with current := r.current.filter (fun p => p.1 != name) }
          : Registry).current.any (fun p => p.1 == name) = true) := by
        intro hany
        obtain ⟨q, hq, hqe⟩ := List.any_eq_true.mp hany
        exact hgone q hq (by simpa using hqe)
      rw [dropCollection, if_neg hnone]
  · rw [dropCollection, if_neg hex] at h
    exact absurd h (by simp)

/-- Claim C3: a committed DropIndex on a (field, field-element-name) pair
yields a snapshot (one commit, at the new LSN) containing no FieldElement
with that name's ID and no SegmentFile referencing it, across all
partitions and segments; a SegmentFileCollector whose predicate matches
that FieldElement returns exactly that element's file set before the
commit and the empty set after it. -/
theorem c3_drop_index (s : Snapshot) (fname ename : String) (newLsn : Nat) (s' : Snapshot)
    (h : dropIndex s fname ename newLsn = Except.ok s') :
    (∀ fe ∈ s'.fieldElements, fe.id ≠ getFieldElementId s fname ename)
    ∧ (∀ f ∈ s'.segmentFiles, f.fieldElementId ≠ getFieldElementId s fname ename)
    ∧ segmentFileCollector s'
        (fun f => f.fieldElementId == getFieldElementId s fname ename) = []
    ∧ (∀ f, f ∈ segmentFileCollector s
          (fun f => f.fieldElementId == getFieldElementId s fname ename)
        ↔ f ∈ s.segmentFiles ∧ f.fieldElementId = getFieldElementId s fname ename)
    ∧ s'.lsn = newLsn := by
  unfold dropIndex at h
  by_cases h0 : getFieldElementId s fname ename = 0
  · rw [if_pos h0] at h
    exact absurd h (by simp)
  · rw [if_neg h0] at h
    simp only [Except.ok.injEq] at h
    subst h
    refine ⟨?_, ?_, ?_, ?_, rfl⟩
    · intro fe hfe
      have := (List.mem_filter.mp hfe).2
      simpa using this
    · intro f hf
      have := (List.mem_filter.mp hf).2
      simpa using this
    · rw [segmentFileCollector, List.filter_eq_nil_iff]
      intro f hf
      have := (List.mem_filter.mp hf).2
      simpa using this
    · intro f
      rw [segmentFileCollector, List.mem_filter]
      simp

/-- Witness for C3 on the IndexTest-style fixture: dropping the ivfsq8
element of the vector field removes it and both of its files across both
partitions. -/
theorem c3_witness :
    (∀ fe ∈ sampleDroppedSnapshot.fieldElements,
        fe.id ≠ getFieldElementId sampleIndexSnapshot "vector" "ivfsq8")
    ∧ (∀ f ∈ sampleDroppedSnapshot.segmentFiles,
        f.fieldElementId ≠ getFieldElementId sampleIndexSnapshot "vector" "ivfsq8")
    ∧ segmentFileCollector sampleDroppedSnapshot
        (fun f => f.fieldElementId == getFieldElementId sampleIndexSnapshot "vector" "ivfsq8")
        = []
    ∧ (∀ f, f ∈ segmentFileCollector sampleIndexSnapshot
          (fun f => f.fieldElementId == getFieldElementId sampleIndexSnapshot "vector" "ivfsq8")
        ↔ f ∈ sampleIndexSnapshot.segmentFiles
          ∧ f.fieldElementId = getFieldElementId sampleIndexSnapshot "vector" "ivfsq8")
    ∧ sampleDroppedSnapshot.lsn = 6 :=
  c3_drop_index sampleIndexSnapshot "vector" "ivfsq8" 6 sampleDroppedSnapshot rfl

/-- Claim C4: in every published snapshot reachable by row-count-adding
commits from a well-formed one, the CollectionCommit row count equals the
sum of the ACTIVE PartitionCommit row counts, each of which equals the
sum of its ACTIVE SegmentCommit row counts (RowCountsWellFormed is
preserved); consequently the collection's row count after N commits
equals the starting row count plus the sum of each commit's delta.
Each commit must target a partition with an ACTIVE commit in the starting
snapshot. -/
theorem c4_row_count_rollup (s : Snapshot) (ops : List CommitOp)
    (hwf : RowCountsWellFormed s)
    (hvalid : ∀ op ∈ ops, ∃ pc ∈ s.partitionCommits,
        pc.partitionId = op.partitionId ∧ pc.state = ResourceState.active) :
    RowCountsWellFormed (applyCommits s ops)
    ∧ (applyCommits s ops).rowCount
        = s.rowCount + (ops.map (fun op => op.delta)).sum := by
  induction ops generalizing s with
  | nil => exact ⟨hwf, by simp [applyCommits]⟩
  | cons op rest ih =>
      have hv0 := hvalid op (List.mem_cons_self _ _)
      have hwf' := commitNewSegment_wellFormed s op hwf hv0
      have hvalid' : ∀ q ∈ rest, ∃ pc ∈ (commitNewSegment s op).partitionCommits,
          pc.partitionId = q.partitionId ∧ pc.state = ResourceState.active :=
        fun q hq => commitNewSegment_active_partition s op q.partitionId
          (hvalid q (List.mem_cons_of_mem _ hq))
      have hrec := ih (commitNewSegment s op) hwf' hvalid'
      refine ⟨hrec.1, ?_⟩
      have h2 : (applyCommits (commitNewSegment s op) rest).rowCount
          = (commitNewSegment s op).rowCount + (rest.map (fun q => q.delta)).sum :=
        hrec.2
      show (applyCommits (commitNewSegment s op) rest).rowCount
          = s.rowCount + ((op :: rest).map (fun q => q.delta)).sum
      rw [h2]
      show s.rowCount + op.delta + (rest.map (fun q => q.delta)).sum
          = s.rowCount + (op.delta + (rest.map (fun q => q.delta)).sum)
      omega

/-- Witness for C4: two commits of 100 and 50 rows into the default
partition of a fresh collection keep the roll-up invariant and produce
row count 0 + (100 + 50). -/
theorem c4_witness :
    RowCountsWellFormed (applyCommits (initialSnapshot 1 7)
        [⟨7, 10, 100, 2⟩, ⟨7, 11, 50, 3⟩])
    ∧ (applyCommits (initialSnapshot 1 7) [⟨7, 10, 100, 2⟩, ⟨7, 11, 50, 3⟩]).rowCount
        = (initialSnapshot 1 7).rowCount
          + (([⟨7, 10, 100, 2⟩, ⟨7, 11, 50, 3⟩] : List CommitOp).map
              (fun op => op.delta)).sum :=
  c4_row_count_rollup (initialSnapshot 1 7) [⟨7, 10, 100, 2⟩, ⟨7, 11, 50, 3⟩]
    (by unfold RowCountsWellFormed; decide) (by decide)

/-- Claim C9: for an Operation that has staged a new segment and one
segment file, SegmentVisitor::Build over the staged segment and the staged
segment-file set returns a non-null visitor of the same shape as one built
from a committed snapshot: its segment equals the staged (not yet ACTIVE)
segment, and across all its field-element visitors exactly the staged
file is exposed, itself not yet ACTIVE.  Hypotheses: the staged file
references the staged segment and a field element of some field of the
collection, and field / field-element IDs are unique in the snapshot (the
spec's uniqueness invariants). -/
theorem c9_staged_visitor_build (snap : Snapshot) (seg : Segment) (f : SegmentFile)
    (fld : Field) (fe : FieldElement)
    (hseg : seg.state = ResourceState.staged)
    (hf : f.state = ResourceState.staged)
    (hfs : f.segmentId = seg.id)
    (hffe : f.fieldElementId = fe.id)
    (hfe : fe ∈ snap.fieldElements)
    (hfef : fe.fieldId = fld.id)
    (hfld : fld ∈ snap.fields)
    (hndF : (snap.fields.map (fun x => x.id)).Nodup)
    (hndE : (snap.fieldElements.map (fun x => x.id)).Nodup) :
    ∃ v, segmentVisitorBuild snap seg [f] = some v
      ∧ v.segment = seg
      ∧ v.segment.IsActive = false
      ∧ exposedFiles v = [f]
      ∧ f.IsActive = false := by
  have hfieldsNd : snap.fields.Nodup := List.Nodup.of_map _ hndF
  have helemsNd : snap.fieldElements.Nodup := List.Nodup.of_map _ hndE
  refine ⟨_, rfl, rfl, ?_, ?_, ?_⟩
  · show (seg.state == ResourceState.active) = false
    rw [hseg]
    decide
  · unfold exposedFiles
    rw [List.map_map]
    apply flatten_map_single snap.fields _ fld [f] hfieldsNd hfld
    · show ((snap.fieldElements.filter (fun fe2 => fe2.fieldId == fld.id)).map
          (elementVisitorFor seg [f])).filterMap (fun ev => ev.file) = [f]
      rw [List.filterMap_map]
      apply filterMap_single _ _ fe f (List.Nodup.filter _ helemsNd)
        (List.mem_filter.mpr ⟨hfe, by simp [hfef]⟩)
      · show [f].find? (fun x => x.segmentId == seg.id && x.fieldElementId == fe.id)
            = some f
        exact List.find?_cons_of_pos _ (by simp [hfs, hffe])
      · intro fe2 hmem2 hne2
        have hmemEl : fe2 ∈ snap.fieldElements := (List.mem_filter.mp hmem2).1
        have hidne : ¬ (f.fieldElementId == fe2.id) = true := by
          simp only [beq_iff_eq, hffe]
          intro he
          exact hne2 (List.inj_on_of_nodup_map hndE hmemEl hfe he.symm)
        show [f].find? (fun x => x.segmentId == seg.id && x.fieldElementId == fe2.id)
            = none
        rw [List.find?_cons_of_neg _ (by
          intro hcond
          rw [Bool.and_eq_true] at hcond
          exact hidne hcond.2)]
        rfl
    · intro fld2 hfld2 hneF
      show ((snap.fieldElements.filter (fun fe2 => fe2.fieldId == fld2.id)).map
          (elementVisitorFor seg [f])).filterMap (fun ev => ev.file) = []
      rw [List.filterMap_map]
      apply List.filterMap_eq_nil_iff.mpr
      intro fe2 hmem2
      have hmemEl : fe2 ∈ snap.fieldElements := (List.mem_filter.mp hmem2).1
      have hfid : (fe2.fieldId == fld2.id) = true := (List.mem_filter.mp hmem2).2
      have hidne : ¬ (f.fieldElementId == fe2.id) = true := by
        simp only [beq_iff_eq, hffe]
        intro he
        have hfe2eq : fe2 = fe := List.inj_on_of_nodup_map hndE hmemEl hfe he.symm
        subst hfe2eq
        have hsame : fld.id = fld2.id := by
          rw [← hfef]
          exact beq_iff_eq.mp hfid
        exact hneF (List.inj_on_of_nodup_map hndF hfld2 hfld hsame.symm)
      show [f].find? (fun x => x.segmentId == seg.id && x.fieldElementId == fe2.id)
          = none
      rw [List.find?_cons_of_neg _ (by
          intro hcond
          rw [Bool.and_eq_true] at hcond
          exact hidne hcond.2)]
      rfl
  · show (f.state == ResourceState.active) = false
    rw [hf]
    decide

/-- Witness for C9 on the VisitorTest-style fixture: a staged segment in
partition 20 with one staged ivfsq8 file; the visitor built from the
staged pair exposes exactly that file. -/
theorem c9_witness :
    ∃ v, segmentVisitorBuild sampleIndexSnapshot sampleStagedSegment [sampleStagedFile]
        = some v
      ∧ v.segment = sampleStagedSegment
      ∧ v.segment.IsActive = false
      ∧ exposedFiles v = [sampleStagedFile]
      ∧ sampleStagedFile.IsActive = false :=
  c9_staged_visitor_build sampleIndexSnapshot sampleStagedSegment sampleStagedFile
    ⟨1, "vector", ResourceState.active⟩ ⟨2, 1, "ivfsq8", ResourceState.active⟩
    rfl rfl rfl rfl (by decide) rfl (by decide) (by decide) (by decide)

/-- Witness for C7 on a registry holding collections c1 and c2. -/
theorem c7_witness :
    "c1" ∉ allCollections (dropCollection ⟨[], [("c1", 0), ("c2", 1)]⟩ "c1").2
    ∧ dropCollection (dropCollection ⟨[], [("c1", 0), ("c2", 1)]⟩ "c1").2 "c1"
        = (Status.notFound, (dropCollection ⟨[], [("c1", 0), ("c2", 1)]⟩ "c1").2) :=
  c7_drop_collection_twice ⟨[], [("c1", 0), ("c2", 1)]⟩ "c1" (by decide)

end Milvus
